import Mathlib

/-!
Shallow embedding of the templated `Set<T, Equal>` container from `set.hpp`
and of the free functions operating on it, together with proofs of the
specified properties.

Modelling notes:
* The C++ object state is `_array` (heap buffer of `_size` slots), `_size`
  (capacity) and `_num_elements` (occupied count).  Every read the class
  performs is bounded by `_num_elements` (`contains`, `remove`, `operator==`,
  `operator<<`, `operator[]` after its range check, `resize`'s copy loop and
  the iterator range `begin()..end()`), so the slots at indices
  `[_num_elements, _size)` are never observable.  The state is therefore
  embedded as the list of occupied slots `arr` (with `arr.length` playing the
  role of `_num_elements`) plus the capacity `size : Nat`.
* The `Equal` functor is an arbitrary boolean binary predicate `eq`.
* `new T[n]` failure is modelled, where a claim needs it, by a boolean
  allocation oracle; a thrown exception is an `Except.error` carrying the
  state the object is left in when the exception escapes.
-/

namespace CppSet

/-- State of a `Set<T, Equal>` object: the occupied slots `[0, _num_elements)`
of `_array`, and `_size` (the capacity). -/
structure CSet (α : Type) where
  arr : List α
  size : Nat
deriving DecidableEq

variable {α : Type}

/-- `_num_elements` — `getNumElements()` in the source. -/
def getNumElements (s : CSet α) : Nat :=
  s.arr.length

/-- The default-constructed Set: `_array == nullptr, _size == 0,
_num_elements == 0`. -/
def defaultSet : CSet α :=
  ⟨[], 0⟩

/-- `Set::empty()`: deallocates the buffer and zeroes `_size` and
`_num_elements`. -/
def emptyFn (_s : CSet α) : CSet α :=
  ⟨[], 0⟩

/-- `Set::swap(other)`: exchanges `_num_elements`, `_size` and `_array` of the
two objects; result is `(this, other)` after the exchange. -/
def swapFn (a b : CSet α) : CSet α × CSet α :=
  (⟨b.arr, b.size⟩, ⟨a.arr, a.size⟩)

/-- The copy constructor: allocates `other._size` slots and copies the
`other._num_elements` occupied elements. -/
def copyCtor (other : CSet α) : CSet α :=
  ⟨other.arr, other.size⟩

/-- `Set::contains(value)`: linear scan of the occupied slots testing
`_equal(_array[i], value)`. -/
def contains (eq : α → α → Bool) (s : CSet α) (v : α) : Bool :=
  s.arr.any (fun x => eq x v)

/-- `Set::add(value)`: returns `false` if the value is contained; otherwise
doubles the capacity when full (`resize(true)`: new size
`_size > 0 ? _size * 2 : 1`, copying the occupied elements), writes the value
at index `_num_elements` and increments `_num_elements`.  Result is the new
state paired with the returned boolean. -/
def add (eq : α → α → Bool) (s : CSet α) (v : α) : CSet α × Bool :=
  if contains eq s v then
    (s, false)
  else
    let sz := if s.arr.length = s.size then (if s.size > 0 then s.size * 2 else 1) else s.size
    (⟨s.arr ++ [v], sz⟩, true)

/-- The scan loop of `Set::remove`: index of the first occupied slot whose
element satisfies `_equal(_array[i], value)`. -/
def findEqIdx (eq : α → α → Bool) (v : α) : List α → Option Nat
  | [] => none
  | x :: xs => if eq x v then some 0 else (findEqIdx eq v xs).map (· + 1)

/-- `Set::remove(value)` with the allocation of `resize(false)` made explicit:
`allocOk` tells whether `new T[new_size]` inside the shrink succeeds.  When it
fails, `resize` deletes the fresh buffer and re-throws, leaving `_array` and
`_size` untouched while `_num_elements` was already decremented; the exception
escapes `remove`, so the result is `Except.error` carrying that state.
The removal overwrites slot `i` with `_array[_num_elements - 1]` and
decrements `_num_elements`; the shrink runs when the new
`_num_elements <= _size / 4`, halving `_size`.  (The `getD` default is never
used: the scan found an element, so the array is nonempty.) -/
def removeAlloc (eq : α → α → Bool) (allocOk : Bool) (s : CSet α) (v : α) :
    Except (CSet α) (CSet α × Bool) :=
  match findEqIdx eq v s.arr with
  | none => .ok (s, false)
  | some i =>
    let last := s.arr.getD (s.arr.length - 1) v
    let arr2 := (s.arr.set i last).take (s.arr.length - 1)
    if s.arr.length - 1 ≤ s.size / 4 then
      if allocOk then .ok (⟨arr2, s.size / 2⟩, true) else .error ⟨arr2, s.size⟩
    else
      .ok (⟨arr2, s.size⟩, true)

/-- `Set::remove(value)` in the normal case in which every allocation
succeeds (same loop and shrink policy as `removeAlloc`). -/
def remove (eq : α → α → Bool) (s : CSet α) (v : α) : CSet α × Bool :=
  match findEqIdx eq v s.arr with
  | none => (s, false)
  | some i =>
    let last := s.arr.getD (s.arr.length - 1) v
    let arr2 := (s.arr.set i last).take (s.arr.length - 1)
    if s.arr.length - 1 ≤ s.size / 4 then
      (⟨arr2, s.size / 2⟩, true)
    else
      (⟨arr2, s.size⟩, true)

/-- `Set::operator[](int index)`: throws `std::out_of_range` when
`index < 0 || index >= _num_elements` (the negative case is tested first,
explicitly, on the signed index); otherwise returns `_array[index]`.
`none` models the thrown exception. -/
def opIndex (s : CSet α) (index : Int) : Option α :=
  if index < 0 ∨ (getNumElements s : Int) ≤ index then
    none
  else
    s.arr.get? index.toNat

/-- `Set::operator==(other)`: `false` when the counts differ, otherwise a scan
of `_num_elements` slots (equal to `other`'s count at that point) checking
`this->contains(other._array[i])` for each. -/
def opEq (eq : α → α → Bool) (a b : CSet α) : Bool :=
  if a.arr.length ≠ b.arr.length then false
  else b.arr.all (fun x => contains eq a x)

/-- `operator<<(os, set)`: writes `_num_elements`, then for each occupied slot
writes `" ("`, the element, `")"`.  The stream contents are modelled as a
`String`, with `f` rendering one element. -/
def ostreamSet (f : α → String) (s : CSet α) : String :=
  s.arr.foldl (fun os x => os ++ " (" ++ f x ++ ")") (Nat.repr s.arr.length)

/-- The canonical textual form as the spec words it:
`"<count> (<elem1>) (<elem2>) ... (<elemN>)"` — the decimal count followed by
one space-preceded parenthesised group per element, in iteration order.
(Spec-side description, to be compared with `ostreamSet`.) -/
def canonicalRender (f : α → String) (s : CSet α) : String :=
  Nat.repr s.arr.length ++ String.join (s.arr.map (fun x => " (" ++ f x ++ ")"))

/-- `operator+(a, b)`: `new_set` is a copy of `a`, then every element of `b`
is `add`ed in iteration order. -/
def plusOp (eq : α → α → Bool) (a b : CSet α) : CSet α :=
  b.arr.foldl (fun ns x => (add eq ns x).1) (copyCtor a)

/-- `operator-(a, b)`: `new_set` starts empty; every element of `a` (in `a`'s
iteration order) that `b.contains` is `add`ed. -/
def minusOp (eq : α → α → Bool) (a b : CSet α) : CSet α :=
  a.arr.foldl (fun ns x => if contains eq b x then (add eq ns x).1 else ns) ⟨[], 0⟩

/-- One mutating operation on a Set, for sequences of operations. -/
inductive SetOp (α : Type) where
  | addOp : α → SetOp α
  | removeOp : α → SetOp α
  | clearOp : SetOp α
deriving DecidableEq

/-- Apply one operation (`add` / `remove` discarding the returned boolean,
`empty()` for clear). -/
def applyOp (eq : α → α → Bool) (s : CSet α) : SetOp α → CSet α
  | .addOp v => (add eq s v).1
  | .removeOp v => (remove eq s v).1
  | .clearOp => emptyFn s

/-- Apply a finite sequence of operations in order. -/
def applyOps (eq : α → α → Bool) (s : CSet α) (ops : List (SetOp α)) : CSet α :=
  ops.foldl (applyOp eq) s

/-- The state invariant the container actually maintains:
count never exceeds capacity; a count of zero forces capacity at most `1`;
a positive count keeps the occupancy strictly above a quarter of the
capacity. -/
def Inv (s : CSet α) : Prop :=
  getNumElements s ≤ s.size ∧
    (getNumElements s = 0 → s.size ≤ 1) ∧
    (0 < getNumElements s → s.size / 4 < getNumElements s)

/-- The uniqueness invariant: no two occupied slots hold `Equal` elements
(the earlier slot is never `_equal` to the later one). -/
def Uniq (eq : α → α → Bool) (s : CSet α) : Prop :=
  s.arr.Pairwise (fun x y => eq x y = false)

end CppSet

namespace CppSet

variable {α : Type}

lemma contains_eq_false_iff (eq : α → α → Bool) (s : CSet α) (v : α) :
    contains eq s v = false ↔ ∀ x ∈ s.arr, eq x v = false := by
  simp [contains]

lemma findEqIdx_eq_none_iff (eq : α → α → Bool) (v : α) (l : List α) :
    findEqIdx eq v l = none ↔ ∀ x ∈ l, eq x v = false := by
  induction l with
  | nil => simp [findEqIdx]
  | cons x xs ih =>
    by_cases h : eq x v = true
    · simp [findEqIdx, h]
    · simp only [Bool.not_eq_true] at h
      simp [findEqIdx, h, ih]

lemma findEqIdx_some_spec (eq : α → α → Bool) (v d : α) :
    ∀ (l : List α) (i : Nat), findEqIdx eq v l = some i →
      i < l.length ∧ eq (l.getD i d) v = true ∧ ∀ j, j < i → eq (l.getD j d) v = false := by
  intro l
  induction l with
  | nil => intro i h; simp [findEqIdx] at h
  | cons x xs ih =>
    intro i h
    by_cases hx : eq x v = true
    · simp [findEqIdx, hx] at h
      subst h
      refine ⟨Nat.succ_pos _, by simpa using hx, ?_⟩
      intro j hj; omega
    · simp only [Bool.not_eq_true] at hx
      simp [findEqIdx, hx] at h
      obtain ⟨i', hi', rfl⟩ := h
      obtain ⟨h1, h2, h3⟩ := ih i' hi'
      refine ⟨by simpa using h1, by simpa using h2, ?_⟩
      intro j hj
      cases j with
      | zero => simpa using hx
      | succ j' => simpa using h3 j' (by omega)

lemma findEqIdx_first (eq : α → α → Bool) (v d : α) :
    ∀ (l : List α) (i : Nat), i < l.length → eq (l.getD i d) v = true →
      (∀ j, j < i → eq (l.getD j d) v = false) → findEqIdx eq v l = some i := by
  intro l
  induction l with
  | nil => intro i h; simp at h
  | cons x xs ih =>
    intro i hlen hi hfirst
    cases i with
    | zero => simp at hi; simp [findEqIdx, hi]
    | succ i' =>
      have hx : eq x v = false := by simpa using hfirst 0 (Nat.succ_pos _)
      have : findEqIdx eq v xs = some i' := by
        refine ih i' (by simpa using hlen) (by simpa using hi) ?_
        intro j hj
        simpa using hfirst (j + 1) (by omega)
      simp [findEqIdx, hx, this]

/-- C3: `add(v)` returns `false` and leaves the Set unchanged exactly when
`contains(v)` is true; otherwise it grows the buffer first if `count` equals
`capacity` (doubling, or `1` from `0`), appends `v` at index `count`,
increments `count` and returns `true`. -/
theorem add_spec (eq : α → α → Bool) (s : CSet α) (v : α) :
    ((add eq s v).2 = false ↔ contains eq s v = true) ∧
    (contains eq s v = true → add eq s v = (s, false)) ∧
    (contains eq s v = false →
      (add eq s v).2 = true ∧
      (add eq s v).1.arr = s.arr ++ [v] ∧
      (add eq s v).1.arr[getNumElements s]? = some v ∧
      getNumElements (add eq s v).1 = getNumElements s + 1 ∧
      (add eq s v).1.size =
        (if getNumElements s = s.size then (if s.size > 0 then s.size * 2 else 1) else s.size)) := by
  by_cases h : contains eq s v = true
  · simp [add, h]
  · simp only [Bool.not_eq_true] at h
    simp [add, h, getNumElements]

/-- Witness for C3 at a concrete input. -/
theorem add_spec_witness :
    contains (fun x y : Nat => x == y) ⟨[1, 2], 2⟩ 3 = false ∧
      (add (fun x y : Nat => x == y) ⟨[1, 2], 2⟩ 3).1.arr = [1, 2] ++ [3] :=
  ⟨by decide,
    ((add_spec (fun x y : Nat => x == y) ⟨[1, 2], 2⟩ 3).2.2 (by decide)).2.1⟩

/-- C4: `remove(v)` scans for the first element `Equal` to `v`; if found at
index `i` that slot is overwritten by the element at the last occupied index,
`count` is decremented, a shrink check runs (halving when the new count is
`≤ capacity / 4`), and `true` is returned; afterwards slot `i` holds the old
last element and every other surviving slot is unchanged (backfill, not a
left-shift).  If no element is `Equal` to `v`, the Set is unchanged and
`false` is returned. -/
theorem remove_spec (eq : α → α → Bool) (s : CSet α) (v : α) :
    ((∀ x ∈ s.arr, eq x v = false) → remove eq s v = (s, false)) ∧
    (∀ i, i < getNumElements s → eq (s.arr.getD i v) v = true →
      (∀ j, j < i → eq (s.arr.getD j v) v = false) →
      (remove eq s v).2 = true ∧
      getNumElements (remove eq s v).1 = getNumElements s - 1 ∧
      (∀ j, j < getNumElements s - 1 →
        (remove eq s v).1.arr[j]? =
          (if j = i then s.arr[getNumElements s - 1]? else s.arr[j]?)) ∧
      (remove eq s v).1.size =
        (if getNumElements s - 1 ≤ s.size / 4 then s.size / 2 else s.size)) := by
  constructor
  · intro hall
    have hnone : findEqIdx eq v s.arr = none := (findEqIdx_eq_none_iff eq v s.arr).mpr hall
    simp [remove, hnone]
  · intro i hlen hi hfirst
    have hfind : findEqIdx eq v s.arr = some i := findEqIdx_first eq v v s.arr i hlen hi hfirst
    have hn : 0 < s.arr.length := by
      simp only [getNumElements] at hlen; omega
    have harr : (remove eq s v).1.arr =
        (s.arr.set i (s.arr.getD (s.arr.length - 1) v)).take (s.arr.length - 1) ∧
        (remove eq s v).2 = true ∧
        (remove eq s v).1.size =
          (if s.arr.length - 1 ≤ s.size / 4 then s.size / 2 else s.size) := by
      simp only [remove, hfind]
      by_cases hc : s.arr.length - 1 ≤ s.size / 4 <;> simp [hc]
    refine ⟨harr.2.1, ?_, ?_, by simpa [getNumElements] using harr.2.2⟩
    · simp only [getNumElements, harr.1, List.length_take, List.length_set]
      omega
    · intro j hj
      simp only [getNumElements] at hj
      rw [harr.1, List.getElem?_take_of_lt hj]
      by_cases hji : j = i
      · subst hji
        have hjlt : j < s.arr.length := by omega
        have hlast : s.arr.getD (s.arr.length - 1) v =
            s.arr.get ⟨s.arr.length - 1, by omega⟩ := by
          simp [List.getD_eq_getElem?_getD, List.get_eq_getElem,
            List.getElem?_eq_getElem (by omega : s.arr.length - 1 < s.arr.length)]
        simp [getNumElements, List.getElem?_set_self hjlt, hlast, List.get_eq_getElem,
          List.getElem?_eq_getElem (by omega : s.arr.length - 1 < s.arr.length)]
      · simp [getNumElements, List.getElem?_set_ne (fun h => hji h.symm), hji]

/-- Witness for C4 at a concrete input: removing `20` from `{10, 20, 30}`
backfills slot 1 with `30`. -/
theorem remove_spec_witness :
    (remove (fun x y : Nat => x == y) ⟨[10, 20, 30], 4⟩ 20).1.arr[1]? = some 30 := by
  have h := (remove_spec (fun x y : Nat => x == y) ⟨[10, 20, 30], 4⟩ 20).2 1
    (by decide) (by decide) (by decide)
  have h2 := h.2.2.1 1 (by decide)
  simpa using h2

end CppSet

namespace CppSet

variable {α : Type}

/-- C8: indexed read access succeeds and returns the element at slot `i`
exactly when `0 ≤ i < count`; any other index — every negative one included,
rejected by the explicit signed test — yields the out-of-range failure and no
result. -/
theorem opIndex_spec (s : CSet α) (i : Int) :
    (0 ≤ i → i < (getNumElements s : Int) →
      ∃ x, opIndex s i = some x ∧ s.arr[i.toNat]? = some x) ∧
    ((i < 0 ∨ (getNumElements s : Int) ≤ i) → opIndex s i = none) := by
  constructor
  · intro h0 hlt
    have hnat : i.toNat < s.arr.length := by
      simp only [getNumElements] at hlt
      omega
    refine ⟨s.arr.get ⟨i.toNat, hnat⟩, ?_,
      by simp [List.get_eq_getElem, List.getElem?_eq_getElem hnat]⟩
    simp only [opIndex]
    rw [if_neg (by simp only [getNumElements]; omega)]
    rw [List.get?_eq_getElem?]
    simp [List.get_eq_getElem, List.getElem?_eq_getElem hnat]
  · intro h
    simp only [opIndex]
    rw [if_pos h]

/-- Witness for C8 at concrete inputs: index `1` of a two-element Set reads
slot `1`; indices `-1` and `2` fail. -/
theorem opIndex_spec_witness :
    (∃ x, opIndex (⟨[5, 7], 2⟩ : CSet Nat) 1 = some x ∧
        (⟨[5, 7], 2⟩ : CSet Nat).arr[(1 : Int).toNat]? = some x) ∧
    opIndex (⟨[5, 7], 2⟩ : CSet Nat) (-1) = none ∧
    opIndex (⟨[5, 7], 2⟩ : CSet Nat) 2 = none :=
  ⟨(opIndex_spec (⟨[5, 7], 2⟩ : CSet Nat) 1).1 (by decide) (by decide),
    (opIndex_spec (⟨[5, 7], 2⟩ : CSet Nat) (-1)).2 (Or.inl (by decide)),
    (opIndex_spec (⟨[5, 7], 2⟩ : CSet Nat) 2).2 (Or.inr (by decide))⟩

lemma foldl_append_out : ∀ (t : List String) (a : String),
    t.foldl (fun r x => r ++ x) a = a ++ t.foldl (fun r x => r ++ x) "" := by
  intro t
  induction t with
  | nil => intro a; simp [String.append_empty]
  | cons x xs ih =>
    intro a
    rw [List.foldl_cons, ih (a ++ x), List.foldl_cons, ih ("" ++ x),
      String.empty_append, String.append_assoc]

lemma join_cons (a : String) (t : List String) :
    String.join (a :: t) = a ++ String.join t := by
  simp only [String.join, List.foldl_cons]
  rw [String.empty_append, foldl_append_out]

lemma foldl_join (g : α → String) (l : List α) :
    ∀ init : String, l.foldl (fun os x => os ++ g x) init = init ++ String.join (l.map g) := by
  induction l with
  | nil => intro init; simp [String.join, String.append_empty]
  | cons x xs ih =>
    intro init
    rw [List.foldl_cons, List.map_cons, join_cons, ih (init ++ g x), String.append_assoc]

/-- C9: the streamed textual form is exactly the decimal count followed by one
space-preceded parenthesised group per element in iteration order, and an
empty Set renders as just `"0"`. -/
theorem ostream_spec (f : α → String) (s : CSet α) :
    ostreamSet f s = canonicalRender f s ∧
    ∀ sz : Nat, ostreamSet f (⟨[], sz⟩ : CSet α) = "0" := by
  constructor
  · have hfun : (fun os x => os ++ " (" ++ f x ++ ")") =
        fun (os : String) (x : α) => os ++ (" (" ++ f x ++ ")") := by
      funext os x
      simp [String.append_assoc]
    simp only [ostreamSet, canonicalRender, hfun]
    exact foldl_join (fun x => " (" ++ f x ++ ")") s.arr (Nat.repr s.arr.length)
  · intro sz
    simp only [ostreamSet, List.foldl_nil, List.length_nil]
    decide

end CppSet

namespace CppSet

variable {α : Type}

lemma any_perm (p : α → Bool) {l l2 : List α} (h : l.Perm l2) : l.any p = l2.any p := by
  cases hb : l2.any p
  · rw [List.any_eq_false] at hb ⊢
    intro x hx
    exact hb x (h.mem_iff.mp hx)
  · rw [List.any_eq_true] at hb ⊢
    obtain ⟨x, hx, hp⟩ := hb
    exact ⟨x, h.mem_iff.mpr hx, hp⟩

lemma all_perm (p : α → Bool) {l l2 : List α} (h : l.Perm l2) : l.all p = l2.all p := by
  cases hb : l2.all p
  · rw [List.all_eq_false] at hb ⊢
    obtain ⟨x, hx, hp⟩ := hb
    exact ⟨x, h.mem_iff.mpr hx, hp⟩
  · rw [List.all_eq_true] at hb ⊢
    intro x hx
    exact hb x (h.mem_iff.mp hx)

lemma contains_perm (eq : α → α → Bool) {a a2 : CSet α} (h : a.arr.Perm a2.arr) (v : α) :
    contains eq a v = contains eq a2 v :=
  any_perm (fun x => eq x v) h

/-- C5: the Set equality test returns `true` iff the two Sets have equal
counts and every element of the right-hand Set is `contains`-found in the
left-hand one; the outcome is independent of the order in which either Set
stores its elements. -/
theorem opEq_spec (eq : α → α → Bool) (a b : CSet α) :
    (opEq eq a b = true ↔
      getNumElements a = getNumElements b ∧ ∀ x ∈ b.arr, contains eq a x = true) ∧
    (∀ a2 b2 : CSet α, a.arr.Perm a2.arr → b.arr.Perm b2.arr →
      opEq eq a b = opEq eq a2 b2) := by
  constructor
  · by_cases h : a.arr.length = b.arr.length
    · simp [opEq, h, List.all_eq_true, getNumElements]
    · simp [opEq, h, getNumElements]
  · intro a2 b2 hpa hpb
    unfold opEq
    rw [hpa.length_eq, hpb.length_eq]
    by_cases h : a2.arr.length = b2.arr.length
    · rw [if_neg (by omega), if_neg (by omega)]
      calc b.arr.all (fun x => contains eq a x)
          = b.arr.all (fun x => contains eq a2 x) := by
            apply congrArg
            funext x
            exact contains_perm eq hpa x
        _ = b2.arr.all (fun x => contains eq a2 x) := all_perm _ hpb
    · rw [if_pos (by omega), if_pos (by omega)]

/-- Witness for C5 at concrete inputs: the test is invariant under reordering
the stored elements of both operands. -/
theorem opEq_spec_witness :
    opEq (fun x y : Nat => x == y) ⟨[1, 2], 2⟩ ⟨[2, 1], 2⟩ =
      opEq (fun x y : Nat => x == y) ⟨[2, 1], 4⟩ ⟨[1, 2], 8⟩ :=
  (opEq_spec (fun x y : Nat => x == y) ⟨[1, 2], 2⟩ ⟨[2, 1], 2⟩).2
    ⟨[2, 1], 4⟩ ⟨[1, 2], 8⟩ (by decide) (by decide)

lemma foldl_add_arr (eq : α → α → Bool) :
    ∀ (l : List α) (acc : CSet α), l.Pairwise (fun x y => eq x y = false) →
      (l.foldl (fun ns x => (add eq ns x).1) acc).arr =
        acc.arr ++ l.filter (fun x => !(contains eq acc x)) := by
  intro l
  induction l with
  | nil => intro acc _; simp
  | cons x xs ih =>
    intro acc hpw
    rw [List.pairwise_cons] at hpw
    rw [List.foldl_cons]
    by_cases hc : contains eq acc x = true
    · have hacc : (add eq acc x).1 = acc := by simp [add, hc]
      rw [hacc, ih acc hpw.2, List.filter_cons]
      simp [hc]
    · simp only [Bool.not_eq_true] at hc
      have harr : ((add eq acc x).1).arr = acc.arr ++ [x] := by simp [add, hc]
      rw [ih (add eq acc x).1 hpw.2, harr]
      have hsame : ∀ y ∈ xs, contains eq (add eq acc x).1 y = contains eq acc y := by
        intro y hy
        simp only [contains, harr, List.any_append, List.any_cons, List.any_nil,
          hpw.1 y hy, Bool.or_false]
      rw [List.filter_congr (fun y hy => by rw [hsame y hy])]
      rw [List.filter_cons]
      simp [hc, List.append_assoc]

/-- C7: the addition-named operator computes the union: all of `a`'s elements
in `a`'s order, followed by those elements of `b` not already `contains`-found
in `a`, in `b`'s order (elements of `b` equal to an element of `a` are
silently dropped); the inputs are not mutated (the operator is a pure
function of `a` and `b`). -/
theorem plusOp_spec (eq : α → α → Bool) (a b : CSet α)
    (hb : Uniq eq b) :
    (plusOp eq a b).arr = a.arr ++ b.arr.filter (fun x => !(contains eq a x)) := by
  unfold plusOp
  rw [foldl_add_arr eq b.arr (copyCtor a) hb]
  rfl

/-- Witness for C7: `{1,2,3} + {3,4,5}` stores `[1, 2, 3, 4, 5]`. -/
theorem plusOp_spec_witness :
    (plusOp (fun x y : Nat => x == y) ⟨[1, 2, 3], 4⟩ ⟨[3, 4, 5], 4⟩).arr = [1, 2, 3, 4, 5] := by
  rw [plusOp_spec (fun x y : Nat => x == y) ⟨[1, 2, 3], 4⟩ ⟨[3, 4, 5], 4⟩
    (by unfold Uniq; decide)]
  decide

lemma foldl_filter_add_arr (eq : α → α → Bool) (b : CSet α) :
    ∀ (l : List α) (acc : CSet α), l.Pairwise (fun x y => eq x y = false) →
      (∀ x ∈ l, contains eq acc x = false) →
      (l.foldl (fun ns x => if contains eq b x then (add eq ns x).1 else ns) acc).arr =
        acc.arr ++ l.filter (fun x => contains eq b x) := by
  intro l
  induction l with
  | nil => intro acc _ _; simp
  | cons x xs ih =>
    intro acc hpw hacc
    rw [List.pairwise_cons] at hpw
    rw [List.foldl_cons]
    by_cases hbx : contains eq b x = true
    · rw [if_pos hbx]
      have hcx : contains eq acc x = false := hacc x (List.mem_cons_self x xs)
      have harr : ((add eq acc x).1).arr = acc.arr ++ [x] := by simp [add, hcx]
      rw [ih (add eq acc x).1 hpw.2 ?_, harr, List.filter_cons]
      · simp [hbx, List.append_assoc]
      · intro y hy
        simp only [contains, harr, List.any_append, List.any_cons, List.any_nil,
          hpw.1 y hy, Bool.or_false]
        exact hacc y (List.mem_cons_of_mem x hy)
    · rw [if_neg (by simp [hbx])]
      rw [ih acc hpw.2 (fun y hy => hacc y (List.mem_cons_of_mem x hy)), List.filter_cons]
      simp [hbx]

/-- C6: the subtraction-named operator computes the intersection: exactly the
elements of `a` that are `contains`-found in `b`, in `a`'s iteration order;
the inputs are not mutated (the operator is a pure function of `a` and
`b`). -/
theorem minusOp_spec (eq : α → α → Bool) (a b : CSet α)
    (ha : Uniq eq a) :
    (minusOp eq a b).arr = a.arr.filter (fun x => contains eq b x) := by
  unfold minusOp
  rw [foldl_filter_add_arr eq b a.arr ⟨[], 0⟩ ha (fun x _ => rfl)]
  simp

/-- Witness for C6: `{1,2,3} - {3,4,5}` stores `[3]`. -/
theorem minusOp_spec_witness :
    (minusOp (fun x y : Nat => x == y) ⟨[1, 2, 3], 4⟩ ⟨[3, 4, 5], 8⟩).arr = [3] := by
  rw [minusOp_spec (fun x y : Nat => x == y) ⟨[1, 2, 3], 4⟩ ⟨[3, 4, 5], 8⟩
    (by unfold Uniq; decide)]
  decide

end CppSet

namespace CppSet

variable {α : Type}

lemma remove_arr_of_find (eq : α → α → Bool) (s : CSet α) (v : α) (i : Nat)
    (h : findEqIdx eq v s.arr = some i) :
    (remove eq s v).1.arr =
      (s.arr.set i (s.arr.getD (s.arr.length - 1) v)).take (s.arr.length - 1) := by
  simp only [remove, h]
  by_cases hc : s.arr.length - 1 ≤ s.size / 4 <;> simp [hc]

/-- C1 (amended): when allocation fails during the post-removal shrink, the
exception escapes `remove` (the caller sees the failure rather than a
returned boolean), but the state it leaves behind has the removal already
committed — the same element sequence a fully successful `remove` produces,
one element fewer than before — and the buffer still at its pre-shrink
capacity. -/
theorem remove_shrink_alloc_fail_spec (eq : α → α → Bool) (s : CSet α) (v : α) (e : CSet α)
    (h : removeAlloc eq false s v = Except.error e) :
    e.arr = (remove eq s v).1.arr ∧
    e.size = s.size ∧
    (remove eq s v).2 = true ∧
    getNumElements e = getNumElements s - 1 := by
  cases hf : findEqIdx eq v s.arr with
  | none => simp [removeAlloc, hf] at h
  | some i =>
    have hi : i < s.arr.length := (findEqIdx_some_spec eq v v s.arr i hf).1
    simp only [removeAlloc, hf] at h
    by_cases hc : s.arr.length - 1 ≤ s.size / 4
    · rw [if_pos hc] at h
      simp only [Bool.false_eq_true, if_false, Except.error.injEq] at h
      subst h
      have hrem : remove eq s v =
          ((⟨(s.arr.set i (s.arr.getD (s.arr.length - 1) v)).take (s.arr.length - 1),
            s.size / 2⟩ : CSet α), true) := by
        simp only [remove, hf, if_pos hc]
      rw [hrem]
      refine ⟨rfl, rfl, rfl, ?_⟩
      simp only [getNumElements, List.length_take, List.length_set]
      omega
    · rw [if_neg hc] at h
      simp at h

/-- Witness for C1's amended claim at a concrete failing shrink: removing the
only element of a capacity-1 Set triggers a shrink; with the allocation
failing, the escaping state has the element gone and capacity still 1. -/
theorem remove_shrink_alloc_fail_spec_witness :
    (⟨[], 1⟩ : CSet Nat).arr = (remove (fun x y : Nat => x == y) ⟨[1], 1⟩ 1).1.arr ∧
    (⟨[], 1⟩ : CSet Nat).size = (⟨[1], 1⟩ : CSet Nat).size ∧
    (remove (fun x y : Nat => x == y) ⟨[1], 1⟩ 1).2 = true ∧
    getNumElements (⟨[], 1⟩ : CSet Nat) = getNumElements (⟨[1], 1⟩ : CSet Nat) - 1 :=
  remove_shrink_alloc_fail_spec (fun x y : Nat => x == y) ⟨[1], 1⟩ 1 ⟨[], 1⟩ (by rfl)

/-- Counterexample to C1 as stated: on the Set `{1}` with capacity 1,
`remove(1)` succeeds in removing and then attempts a shrink; when that
allocation fails the call does **not** return `true` — the failure propagates
(`Except.error`), carrying the post-removal, pre-shrink state. -/
theorem remove_shrink_alloc_fail_cex :
    removeAlloc (fun x y : Nat => x == y) false ⟨[1], 1⟩ 1 = Except.error ⟨[], 1⟩ ∧
    (removeAlloc (fun x y : Nat => x == y) false ⟨[1], 1⟩ 1).isOk = false := by
  constructor <;> rfl

lemma inv_add (eq : α → α → Bool) (s : CSet α) (v : α) (h : Inv s) : Inv ((add eq s v).1) := by
  by_cases hc : contains eq s v = true
  · simpa [add, hc] using h
  · simp only [Bool.not_eq_true] at hc
    simp only [Inv, getNumElements] at h ⊢
    obtain ⟨h1, h2, h3⟩ := h
    simp only [add, hc, Bool.false_eq_true, if_false, List.length_append, List.length_cons,
      List.length_nil]
    rcases Nat.eq_zero_or_pos s.arr.length with hn | hn
    · have hsz := h2 hn
      split_ifs <;> (try simp only [false_implies, true_and]) <;> omega
    · have hsz := h3 hn
      split_ifs <;> (try simp only [false_implies, true_and]) <;> omega

lemma inv_remove (eq : α → α → Bool) (s : CSet α) (v : α) (h : Inv s) : Inv ((remove eq s v).1) := by
  cases hf : findEqIdx eq v s.arr with
  | none => simpa [remove, hf] using h
  | some i =>
    have hi : i < s.arr.length := (findEqIdx_some_spec eq v v s.arr i hf).1
    simp only [Inv, getNumElements] at h ⊢
    obtain ⟨h1, h2, h3⟩ := h
    have h3' : s.size / 4 < s.arr.length := h3 (by omega)
    simp only [remove, hf]
    by_cases hc : s.arr.length - 1 ≤ s.size / 4
    · simp only [if_pos hc, List.length_take, List.length_set]
      refine ⟨by omega, by omega, by omega⟩
    · simp only [if_neg hc, List.length_take, List.length_set]
      refine ⟨by omega, by omega, by omega⟩

lemma inv_applyOps (eq : α → α → Bool) (ops : List (SetOp α)) :
    ∀ s : CSet α, Inv s → Inv (applyOps eq s ops) := by
  induction ops with
  | nil => intro s h; simpa [applyOps] using h
  | cons op ops ih =>
    intro s h
    have h1 : Inv (applyOp eq s op) := by
      cases op with
      | addOp v => exact inv_add eq s v h
      | removeOp v => exact inv_remove eq s v h
      | clearOp => simp [applyOp, emptyFn, Inv, getNumElements]
    simpa [applyOps] using ih (applyOp eq s op) h1

/-- C2 (amended): starting from any state satisfying the container invariant
(in particular from a default-constructed Set), after every finite sequence of
`add` / `remove` / `clear` operations `count ≤ capacity` holds, and whenever
`capacity > 0` after an operation that could trigger a shrink, either the Set
is empty (`count = 0`, possible only with capacity `1`) or
`count > capacity / 4`; `swap` and copy construction also preserve the
invariant. -/
theorem inv_preserved_spec (eq : α → α → Bool) (s : CSet α) (ops : List (SetOp α))
    (h : Inv s) :
    (getNumElements (applyOps eq s ops) ≤ (applyOps eq s ops).size ∧
      (0 < (applyOps eq s ops).size →
        getNumElements (applyOps eq s ops) = 0 ∨
          (applyOps eq s ops).size / 4 < getNumElements (applyOps eq s ops))) ∧
    (∀ a b : CSet α, Inv a → Inv b → Inv (swapFn a b).1 ∧ Inv (swapFn a b).2) ∧
    (∀ a : CSet α, Inv a → Inv (copyCtor a)) := by
  refine ⟨?_, ?_, ?_⟩
  · have hI := inv_applyOps eq ops s h
    simp only [Inv] at hI
    obtain ⟨h1, h2, h3⟩ := hI
    refine ⟨h1, fun _ => ?_⟩
    by_cases hn : getNumElements (applyOps eq s ops) = 0
    · exact Or.inl hn
    · exact Or.inr (h3 (by omega))
  · intro a b ha hb
    exact ⟨hb, ha⟩
  · intro a ha
    exact ha

/-- Witness for C2's amended claim at a concrete input. -/
theorem inv_preserved_spec_witness :
    getNumElements (applyOps (fun x y : Nat => x == y) defaultSet [SetOp.addOp 5]) ≤
      (applyOps (fun x y : Nat => x == y) (defaultSet : CSet Nat) [SetOp.addOp 5]).size :=
  ((inv_preserved_spec (fun x y : Nat => x == y) defaultSet [SetOp.addOp 5]
    (by simp [Inv, defaultSet, getNumElements])).1).1

/-- Counterexample to C2 as stated: `add 1; add 2; remove 2; remove 1` on a
fresh Set ends — immediately after a remove, an operation that can trigger a
shrink — with `capacity = 1 > 0` but `count = 0`, and `count > capacity / 4`
fails (`0 > 0` is false). -/
theorem shrink_invariant_cex :
    applyOps (fun x y : Nat => x == y) defaultSet
        [SetOp.addOp 1, SetOp.addOp 2, SetOp.removeOp 2, SetOp.removeOp 1] =
      (⟨[], 1⟩ : CSet Nat) ∧
    0 < (⟨[], 1⟩ : CSet Nat).size ∧
    ¬ ((⟨[], 1⟩ : CSet Nat).size / 4 < getNumElements (⟨[], 1⟩ : CSet Nat)) := by
  refine ⟨by rfl, by decide, by decide⟩

/-- C10: on a Set satisfying the uniqueness invariant, adding a value `v` that
is not contained (with `Equal` reflexive at `v`, as an equality functor is)
and then removing it restores exactly the original element sequence — the
added element sits at the last occupied index, so the swap-remove backfill is
a no-op — though the capacity may differ. -/
theorem add_remove_roundtrip (eq : α → α → Bool) (s : CSet α) (v : α)
    (_hu : Uniq eq s) (hnc : contains eq s v = false) (hrefl : eq v v = true) :
    ((remove eq ((add eq s v).1) v).1).arr = s.arr := by
  have harr : (add eq s v).1.arr = s.arr ++ [v] := by simp [add, hnc]
  have hall : ∀ x ∈ s.arr, eq x v = false := (contains_eq_false_iff eq s v).mp hnc
  have hgetD : (s.arr ++ [v]).getD s.arr.length v = v := by
    simp [List.getD_eq_getElem?_getD, List.getElem?_append_right (Nat.le_refl s.arr.length)]
  have hfind : findEqIdx eq v ((add eq s v).1).arr = some s.arr.length := by
    rw [harr]
    apply findEqIdx_first eq v v
    · simp
    · rw [hgetD]; exact hrefl
    · intro j hj
      have hD : (s.arr ++ [v]).getD j v = s.arr.getD j v := by
        simp [List.getD_eq_getElem?_getD, List.getElem?_append_left hj]
      rw [hD]
      have hmem : s.arr.getD j v ∈ s.arr := by
        rw [List.getD_eq_getElem?_getD, List.getElem?_eq_getElem hj]
        simp [List.getElem_mem]
      exact hall _ hmem
  rw [remove_arr_of_find eq ((add eq s v).1) v s.arr.length hfind]
  rw [harr]
  have hlen : (s.arr ++ [v]).length - 1 = s.arr.length := by simp
  rw [hlen]
  have hD2 : (s.arr ++ [v]).getD s.arr.length v = v := hgetD
  rw [hD2]
  have hset : (s.arr ++ [v]).set s.arr.length v = s.arr ++ [v] := by
    rw [List.set_append_right s.arr.length v (Nat.le_refl s.arr.length)]
    simp
  rw [hset]
  exact List.take_left s.arr [v]

/-- Witness for C10 at a concrete input: `{1, 2}` after `add 3; remove 3`
stores `[1, 2]` again. -/
theorem add_remove_roundtrip_witness :
    ((remove (fun x y : Nat => x == y)
        ((add (fun x y : Nat => x == y) ⟨[1, 2], 2⟩ 3).1) 3).1).arr = [1, 2] :=
  add_remove_roundtrip (fun x y : Nat => x == y) ⟨[1, 2], 2⟩ 3
    (by unfold Uniq; decide) (by decide) (by decide)

end CppSet
